import Mathlib

/-!
Verification of the jPulse auth-mfa plugin core against its specification.

The definitions below are shallow embeddings of the JavaScript source:

* `plugins/auth-mfa/webapp/model/mfaAuth.js` — the `MfaAuthModel` class
  (policy decision `isMfaRequired`, encryption `encrypt` / `decrypt`,
  backup-code hashing `hashBackupCode` / `verifyBackupCode` /
  `useBackupCode`, lockout `recordFailure` / `recordSuccess` / `isLocked`).
* `plugins/auth-mfa/webapp/controller/mfaAuth.js` — the `MfaAuthController`
  login hook `onAuthValidateStep` and the policy gate of `apiDisable`.

Timestamps are modelled as natural numbers (milliseconds since the epoch,
as JavaScript `Date.now()`).  Optional / nullable fields are `Option`.
JavaScript falsiness of a string is equality with the empty string; of a
nullable date, `Option.isSome`.  External primitives that the plugin calls
(`otplib` TOTP verification, Node `scryptSync`, AES-256-GCM) are modelled
as parameters; everything the plugin itself computes (SHA-256 via Node
`createHash('sha256')`, base64 via `Buffer`, the control flow and data
layout) is translated concretely.
-/

namespace MfaAuth

/-! ## Data model: the per-user `mfa` profile and the plugin config -/

/-- The persisted `mfa` sub-document of a user, per the schema extension in
the model file (fields `enabled`, `secret`, `backupCodes`, `failedAttempts`,
`lockedUntil`, `gracePeriodUntil`, `lastUsedAt`). -/
structure MfaProfile where
  enabled : Bool
  secret : String
  backupCodes : List String
  failedAttempts : Nat
  lockedUntil : Option Nat
  gracePeriodUntil : Option Nat
  lastUsedAt : Option Nat
deriving DecidableEq

/-- A user as seen by this plugin: the `mfa` namespace plus `roles`
(`none` models an absent `roles` field, which the source defaults to
`['user']`). -/
structure User where
  mfa : MfaProfile
  roles : Option (List String)
deriving DecidableEq

/-- Plugin configuration (`getConfig`), restricted to the fields the
embedded operations read. -/
structure MfaConfig where
  mfaPolicy : String
  requiredRoles : List String
  maxFailedAttempts : Nat
  lockoutDuration : Nat
deriving DecidableEq

/-- A profile with every field at its schema default. -/
def emptyProfile : MfaProfile :=
  { enabled := false, secret := "", backupCodes := [], failedAttempts := 0,
    lockedUntil := none, gracePeriodUntil := none, lastUsedAt := none }

/-! ## PolicyEngine: `isMfaRequired` (model file, lines 437-472) -/

/-- Result record of `isMfaRequired`. -/
structure MfaReq where
  required : Bool
  reason : String
deriving DecidableEq

/-- The grace-period test the source performs inline in both the
`required` and `required-for-roles` branches:
`user.mfa?.gracePeriodUntil && new Date() < new Date(user.mfa.gracePeriodUntil)`. -/
def gracePeriodActive (user : User) (now : Nat) : Bool :=
  match user.mfa.gracePeriodUntil with
  | some t => decide (now < t)
  | none => false

/-- Translation of `MfaAuthModel.isMfaRequired`.  The enabled check comes
first; then the switch on `config.mfaPolicy` with `user.roles || ['user']`
and `config.requiredRoles || []` (the latter is always an array here). -/
def isMfaRequired (user : User) (config : MfaConfig) (now : Nat) : MfaReq :=
  if user.mfa.enabled then ⟨true, "enabled"⟩
  else
    match config.mfaPolicy with
    | "required" =>
        if gracePeriodActive user now then ⟨false, "grace-period"⟩
        else ⟨true, "policy-required"⟩
    | "required-for-roles" =>
        let userRoles := user.roles.getD ["user"]
        if userRoles.any (fun role => config.requiredRoles.contains role) then
          if gracePeriodActive user now then ⟨false, "grace-period"⟩
          else ⟨true, "role-required"⟩
        else ⟨false, "optional"⟩
    | _ => ⟨false, "optional"⟩

/-- Modelled from the spec: the decision table of section 4.1
(`PolicyEngine.isRequired`), written from the spec's words for comparison
with the source translation `isMfaRequired`.  Role intersection is the
spec's "any of the user's roles is in `requiredRoles`". -/
def isMfaRequiredSpec (user : User) (config : MfaConfig) (now : Nat) : MfaReq :=
  if user.mfa.enabled then ⟨true, "enabled"⟩
  else if config.mfaPolicy = "required" then
    if gracePeriodActive user now then ⟨false, "grace-period"⟩
    else ⟨true, "policy-required"⟩
  else if config.mfaPolicy = "required-for-roles" then
    if decide (∃ role ∈ user.roles.getD ["user"], role ∈ config.requiredRoles) then
      if gracePeriodActive user now then ⟨false, "grace-period"⟩
      else ⟨true, "role-required"⟩
    else ⟨false, "optional"⟩
  else ⟨false, "optional"⟩

/-- The policy gate of `apiDisable` (controller, lines 498-506): the
request is rejected with "MFA is required by policy and cannot be
disabled" exactly when
`mfaRequired.required && mfaRequired.reason !== 'enabled'`. -/
def disableBlockedByPolicy (user : User) (config : MfaConfig) (now : Nat) : Bool :=
  let r := isMfaRequired user config now
  r.required && r.reason != "enabled"

/-! ## LockoutTracker: `recordFailure`, `recordSuccess`, `isLocked` -/

/-- The record returned by `recordFailure`
(`{ locked, lockedUntil, attempts }`; `lockedUntil` is `null` below the
threshold). -/
structure FailureResult where
  locked : Bool
  lockedUntil : Option Nat
  attempts : Nat
deriving DecidableEq

/-- Translation of `MfaAuthModel.recordFailure` (model file, lines
550-575).  The first component is the returned record, the second the
persisted profile (the source issues `updateById` with
`mfa.failedAttempts` and, at the threshold, `mfa.lockedUntil`). -/
def recordFailure (p : MfaProfile) (config : MfaConfig) (now : Nat) :
    FailureResult × MfaProfile :=
  let currentAttempts := p.failedAttempts + 1
  if config.maxFailedAttempts ≤ currentAttempts then
    let lockedUntil := now + config.lockoutDuration * 60 * 1000
    (⟨true, some lockedUntil, currentAttempts⟩,
     { p with failedAttempts := currentAttempts, lockedUntil := some lockedUntil })
  else
    (⟨false, none, currentAttempts⟩, { p with failedAttempts := currentAttempts })

/-- Translation of `MfaAuthModel.recordSuccess` (model file, lines
535-543): reset the counter, clear the lock, stamp `lastUsedAt`. -/
def recordSuccess (p : MfaProfile) (now : Nat) : MfaProfile :=
  { p with lastUsedAt := some now, failedAttempts := 0, lockedUntil := none }

/-- Iterated consecutive failures: the profile after `n` calls of
`recordFailure` (persisting each result before the next call). -/
def repeatFailures (config : MfaConfig) (now : Nat) (p : MfaProfile) : Nat → MfaProfile
  | 0 => p
  | n + 1 => (recordFailure (repeatFailures config now p n) config now).2

/-- The record returned by `isLocked`. -/
structure LockStatus where
  locked : Bool
  lockedUntil : Option Nat
  remainingMinutes : Option Nat
deriving DecidableEq

/-- Translation of `MfaAuthModel.isLocked` (model file, lines 582-603): a
pure read of `user.mfa.lockedUntil` against the current time, with
`remainingMinutes = Math.ceil(remainingMs / 60000)`; an elapsed
`lockedUntil` yields unlocked and the stored field is not touched. -/
def isLocked (user : User) (now : Nat) : LockStatus :=
  match user.mfa.lockedUntil with
  | none => ⟨false, none, none⟩
  | some lockDate =>
      if lockDate ≤ now then ⟨false, none, none⟩
      else ⟨true, some lockDate, some ((lockDate - now + 59999) / 60000)⟩

/-! ## SHA-256 (Node `crypto.createHash('sha256')`), over byte lists

The plugin hashes backup codes with SHA-256 and compares the hex digests;
the hash itself is computed concretely so that digest equalities and
inequalities at specific codes are decidable. -/

/-- Truncation to a 32-bit word. -/
def w32 (n : Nat) : Nat := n % 4294967296

/-- Right rotation of a 32-bit word. -/
def rotr32 (n x : Nat) : Nat := w32 ((x >>> n) ||| (x <<< (32 - n)))

def shaCh (x y z : Nat) : Nat := (x &&& y) ^^^ ((x ^^^ 4294967295) &&& z)

def shaMaj (x y z : Nat) : Nat := (x &&& y) ^^^ (x &&& z) ^^^ (y &&& z)

def bigSigma0 (x : Nat) : Nat := rotr32 2 x ^^^ rotr32 13 x ^^^ rotr32 22 x

def bigSigma1 (x : Nat) : Nat := rotr32 6 x ^^^ rotr32 11 x ^^^ rotr32 25 x

def smallSigma0 (x : Nat) : Nat := rotr32 7 x ^^^ rotr32 18 x ^^^ (x >>> 3)

def smallSigma1 (x : Nat) : Nat := rotr32 17 x ^^^ rotr32 19 x ^^^ (x >>> 10)

/-- The SHA-256 round constants. -/
def shaK : List Nat :=
  [1116352408, 1899447441, 3049323471, 3921009573, 961987163,
   1508970993, 2453635748, 2870763221, 3624381080, 310598401,
   607225278, 1426881987, 1925078388, 2162078206, 2614888103,
   3248222580, 3835390401, 4022224774, 264347078, 604807628,
   770255983, 1249150122, 1555081692, 1996064986, 2554220882,
   2821834349, 2952996808, 3210313671, 3336571891, 3584528711,
   113926993, 338241895, 666307205, 773529912, 1294757372,
   1396182291, 1695183700, 1986661051, 2177026350, 2456956037,
   2730485921, 2820302411, 3259730800, 3345764771, 3516065817,
   3600352804, 4094571909, 275423344, 430227734, 506948616,
   659060556, 883997877, 958139571, 1322822218, 1537002063,
   1747873779, 1955562222, 2024104815, 2227730452, 2361852424,
   2428436474, 2756734187, 3204031479, 3329325298]

/-- The SHA-256 initial hash value. -/
def shaInitial : List Nat :=
  [1779033703, 3144134277, 1013904242, 2773480762,
   1359893119, 2600822924, 528734635, 1541459225]

/-- Big-endian 32-bit words from a byte list. -/
def beWords : List Nat → List Nat
  | a :: b :: c :: d :: rest => (a * 16777216 + b * 65536 + c * 256 + d) :: beWords rest
  | _ => []

/-- The 8 big-endian bytes of a 64-bit length field. -/
def beBytes8 (n : Nat) : List Nat :=
  [n >>> 56 &&& 255, n >>> 48 &&& 255, n >>> 40 &&& 255, n >>> 32 &&& 255,
   n >>> 24 &&& 255, n >>> 16 &&& 255, n >>> 8 &&& 255, n &&& 255]

/-- SHA-256 message padding: `0x80`, zeros to 56 mod 64, 64-bit bit length. -/
def sha256pad (msg : List Nat) : List Nat :=
  let L := msg.length
  msg ++ [128] ++ List.replicate ((119 - L % 64) % 64) 0 ++ beBytes8 (8 * L)

/-- Split into 64-byte chunks (structural recursion on a length fuel so the
kernel can evaluate it). -/
def chunks64Aux : Nat → List Nat → List (List Nat)
  | 0, _ => []
  | _, [] => []
  | fuel + 1, x :: rest => (x :: rest.take 63) :: chunks64Aux fuel (rest.drop 63)

def chunks64 (l : List Nat) : List (List Nat) := chunks64Aux l.length l

/-- Message-schedule extension from 16 to 64 words. -/
def msgSchedule (ws : Array Nat) : Array Nat :=
  (List.range 48).foldl (fun arr i =>
    arr.push (w32 (arr.getD i 0 + smallSigma0 (arr.getD (i + 1) 0) +
      arr.getD (i + 9) 0 + smallSigma1 (arr.getD (i + 14) 0)))) ws

/-- Working registers of the compression loop. -/
structure ShaState where
  a : Nat
  b : Nat
  c : Nat
  d : Nat
  e : Nat
  f : Nat
  g : Nat
  h : Nat

/-- One 64-byte chunk of the SHA-256 compression function. -/
def compressChunk (hs : List Nat) (chunk : List Nat) : List Nat :=
  let ws := msgSchedule (beWords chunk).toArray
  let st0 : ShaState :=
    ⟨hs.getD 0 0, hs.getD 1 0, hs.getD 2 0, hs.getD 3 0,
     hs.getD 4 0, hs.getD 5 0, hs.getD 6 0, hs.getD 7 0⟩
  let st := (List.range 64).foldl (fun st i =>
    let t1 := w32 (st.h + bigSigma1 st.e + shaCh st.e st.f st.g + shaK.getD i 0 + ws.getD i 0)
    let t2 := w32 (bigSigma0 st.a + shaMaj st.a st.b st.c)
    ⟨w32 (t1 + t2), st.a, st.b, st.c, w32 (st.d + t1), st.e, st.f, st.g⟩) st0
  [w32 (hs.getD 0 0 + st.a), w32 (hs.getD 1 0 + st.b), w32 (hs.getD 2 0 + st.c),
   w32 (hs.getD 3 0 + st.d), w32 (hs.getD 4 0 + st.e), w32 (hs.getD 5 0 + st.f),
   w32 (hs.getD 6 0 + st.g), w32 (hs.getD 7 0 + st.h)]

/-- The eight 32-bit words of the SHA-256 digest of a byte list. -/
def sha256words (msg : List Nat) : List Nat :=
  (chunks64 (sha256pad msg)).foldl compressChunk shaInitial

/-- Lowercase hex digit (Node digests are lowercase hex). -/
def hexChar (n : Nat) : Char :=
  if n < 10 then Char.ofNat (48 + n) else if n < 16 then Char.ofNat (87 + n) else '0'

/-- The 8 hex characters of a 32-bit word. -/
def wordHex (n : Nat) : List Char :=
  [hexChar (n >>> 28 &&& 15), hexChar (n >>> 24 &&& 15), hexChar (n >>> 20 &&& 15),
   hexChar (n >>> 16 &&& 15), hexChar (n >>> 12 &&& 15), hexChar (n >>> 8 &&& 15),
   hexChar (n >>> 4 &&& 15), hexChar (n &&& 15)]

/-- `createHash('sha256').update(msg).digest('hex')` over a byte list. -/
def sha256hex (msg : List Nat) : String :=
  String.mk (List.flatten ((sha256words msg).map wordHex))

/-- The UTF-8 bytes of a string, as `Buffer.from(s)` /
`hash.update(s)` see it. -/
def bytesOfString (s : String) : List Nat :=
  (List.flatten (s.data.map String.utf8EncodeChar)).map UInt8.toNat

/-! ## BackupCodeManager: hashing, verification, consumption -/

/-- The dash-stripping step, `replace` with the global dash regex. -/
def stripDashes : List Char → List Char
  | [] => []
  | c :: rest => if c = '-' then stripDashes rest else c :: stripDashes rest

/-- `.toUpperCase()` on the characters the plugin handles (ASCII). -/
def upperChars : List Char → List Char
  | [] => []
  | c :: rest => c.toUpper :: upperChars rest

/-- The normalization inside `hashBackupCode`:
strip every dash, then `.toUpperCase()`. -/
def normalizeBackupCode (code : String) : String :=
  String.mk (upperChars (stripDashes code.data))

/-- Modelled from the spec: the `normalize` of section 4.3, "strip
non-alphanumeric characters, uppercase", for comparison with the source's
`normalizeBackupCode`. -/
def specNormalize (code : String) : String :=
  String.mk ((code.data.filter (fun c => c.isAlphanum)).map Char.toUpper)

/-- Translation of `MfaAuthModel.hashBackupCode` (model file, lines
362-369): SHA-256 hex digest of the normalized code concatenated with the
fixed salt. -/
def hashBackupCode (code : String) : String :=
  sha256hex (bytesOfString (normalizeBackupCode code ++ "mfa-backup-salt"))

/-- Node `crypto.timingSafeEqual(a, b)`: throws (`Except.error`) when the
buffers differ in byte length, otherwise reports byte equality. -/
def timingSafeEqual (a b : List Nat) : Except String Bool :=
  if a.length = b.length then .ok (a == b)
  else .error "Input buffers must have the same byte length"

/-- The comparison loop of `verifyBackupCode`, with the running index. -/
def vbcLoop (inputBytes : List Nat) : List String → Nat → Except String Int
  | [], _ => .ok (-1)
  | h :: rest, i =>
      match timingSafeEqual inputBytes (bytesOfString h) with
      | .error e => .error e
      | .ok true => .ok (Int.ofNat i)
      | .ok false => vbcLoop inputBytes rest (i + 1)

/-- Translation of `MfaAuthModel.verifyBackupCode` (model file, lines
377-391): hash the input once, then `timingSafeEqual` against each stored
hash in order; first match index, or `-1`. -/
def verifyBackupCode (code : String) (hashes : List String) : Except String Int :=
  vbcLoop (bytesOfString (hashBackupCode code)) hashes 0

/-- Translation of `MfaAuthModel.useBackupCode` (model file, lines
611-635), restricted to the backup-code list: on a match, `splice` the
matched entry out and report success together with the persisted list; on
`-1`, report failure with the list unchanged.  An exception from
`verifyBackupCode` propagates. -/
def useBackupCode (code : String) (hashes : List String) :
    Except String (Bool × List String) :=
  match verifyBackupCode code hashes with
  | .error e => .error e
  | .ok i => if i = -1 then .ok (false, hashes) else .ok (true, hashes.eraseIdx i.toNat)

/-! ## Base64 (Node `Buffer.toString('base64')` / `Buffer.from(s, 'base64')`)

Encoding is RFC 4648 with padding; decoding is Node's forgiving variant:
characters outside the alphabet (including `=`) are skipped, and a
trailing group of 2 or 3 data characters contributes 1 or 2 bytes. -/

def b64Alphabet : List Char :=
  "ABCDEFGHIJKLMNOPQRSTUVWXYZabcdefghijklmnopqrstuvwxyz0123456789+/".data

def b64Char (n : Nat) : Char := b64Alphabet.getD n 'A'

def b64ValAux : List Char → Nat → Char → Option Nat
  | [], _, _ => none
  | a :: rest, i, c => if a = c then some i else b64ValAux rest (i + 1) c

/-- The 6-bit value of a base64 character, `none` off the alphabet. -/
def b64Val (c : Char) : Option Nat := b64ValAux b64Alphabet 0 c

/-- Base64 characters of a byte list, three bytes to four characters,
padded with `=`. -/
def b64EncodeChunks : List Nat → List Char
  | a :: b :: c :: rest =>
      b64Char (a / 4) :: b64Char (a % 4 * 16 + b / 16) :: b64Char (b % 16 * 4 + c / 64) ::
        b64Char (c % 64) :: b64EncodeChunks rest
  | [a, b] => [b64Char (a / 4), b64Char (a % 4 * 16 + b / 16), b64Char (b % 16 * 4), '=']
  | [a] => [b64Char (a / 4), b64Char (a % 4 * 16), '=', '=']
  | [] => []

def b64encode (l : List Nat) : String := String.mk (b64EncodeChunks l)

/-- Bytes from a list of 6-bit values, four values to three bytes, with
Node's handling of a short trailing group. -/
def b64DecodeGroups : List Nat → List Nat
  | a :: b :: c :: d :: rest =>
      (a * 4 + b / 16) :: (b % 16 * 16 + c / 4) :: (c % 4 * 64 + d) :: b64DecodeGroups rest
  | [a, b] => [a * 4 + b / 16]
  | [a, b, c] => [a * 4 + b / 16, b % 16 * 16 + c / 4]
  | _ => []

def b64decode (s : String) : List Nat := b64DecodeGroups (s.data.filterMap b64Val)

/-! ## CryptoVault: key derivation and AES-256-GCM as an abstract AEAD

`scryptSync` and the AES-256-GCM cipher are external Node primitives; they
enter the model as a key-derivation function parameter and an `Aead`
bundle whose contract fields record exactly what the Node API guarantees:
a 16-byte auth tag, byte-valued output, and round-tripping of its own
ciphertexts under the same key and IV.  Tag verification failure is
`dec = none`. -/

structure Aead where
  enc : List Nat → List Nat → String → List Nat × List Nat
  dec : List Nat → List Nat → List Nat → List Nat → Option String
  enc_ct_lt : ∀ k iv pt b, b ∈ (enc k iv pt).1 → b < 256
  enc_tag_lt : ∀ k iv pt b, b ∈ (enc k iv pt).2 → b < 256
  enc_tag_len : ∀ k iv pt, (enc k iv pt).2.length = 16
  dec_enc : ∀ k iv pt, dec k iv (enc k iv pt).2 (enc k iv pt).1 = some pt

/-- Translation of `MfaAuthModel.getEncryptionKey` (model file, lines
270-274): `scryptSync(sessionSecret, 'mfa-salt', 32)`; deterministic in
the process secret because `kdf` is a function. -/
def getEncryptionKey (kdf : String → String → Nat → List Nat) (sessionSecret : String) :
    List Nat :=
  kdf sessionSecret "mfa-salt" 32

/-- Translation of `MfaAuthModel.encrypt` (model file, lines 281-299):
empty input is returned as is; otherwise the persisted blob is
`base64(iv ++ authTag ++ ciphertextBytes)`, where the cipher stream output
was collected as base64 text and turned back into bytes by
`Buffer.from(encrypted, 'base64')`. -/
def encrypt (A : Aead) (kdf : String → String → Nat → List Nat) (sessionSecret : String)
    (iv : List Nat) (text : String) : String :=
  if text = "" then ""
  else
    let key := getEncryptionKey kdf sessionSecret
    let ct := (A.enc key iv text).1
    let authTag := (A.enc key iv text).2
    let encrypted := b64encode ct
    b64encode (iv ++ authTag ++ b64decode encrypted)

/-- Translation of `MfaAuthModel.decrypt` (model file, lines 306-328):
empty input is returned as is; otherwise decode the blob, split it at the
fixed offsets 16 and 32, and run authenticated decryption.  Every failure
path of the source's `try` block — an empty IV rejected by
`createDecipheriv`, an auth tag that is not 16 bytes rejected by
`setAuthTag`, or tag verification failure in `final()` — is caught and
surfaced as the empty string. -/
def decrypt (A : Aead) (kdf : String → String → Nat → List Nat) (sessionSecret : String)
    (encryptedText : String) : String :=
  if encryptedText = "" then ""
  else
    let key := getEncryptionKey kdf sessionSecret
    let data := b64decode encryptedText
    let iv := data.take 16
    let authTag := (data.drop 16).take 16
    let encrypted := data.drop 32
    if iv.length = 0 then ""
    else if authTag.length ≠ 16 then ""
    else
      match A.dec key iv authTag encrypted with
      | some plain => plain
      | none => ""

/-- Translation of `MfaAuthModel.getDecryptedSecret` (model file, lines
666-671). -/
def getDecryptedSecret (A : Aead) (kdf : String → String → Nat → List Nat)
    (sessionSecret : String) (user : User) : String :=
  if user.mfa.secret = "" then "" else decrypt A kdf sessionSecret user.mfa.secret

/-! ## VerificationFlow: the `onAuthValidateStep` login hook
(controller file, lines 115-210) -/

/-- The observable outcome of one `onAuthValidateStep` call: the
validation verdict and error written into the context, and whether
failure / success accounting (`recordFailure` / `recordSuccess`) ran. -/
structure StepOutcome where
  handled : Bool
  valid : Bool
  error : Option String
  recordedFailure : Bool
  recordedSuccess : Bool
deriving DecidableEq

/-- JavaScript falsiness of `stepData.code` (absent or empty string). -/
def codeIsFalsy : Option String → Bool
  | none => true
  | some s => s = ""

/-- Whitespace class of the code-cleaning regexes. -/
def isSpaceChar (c : Char) : Bool :=
  c = ' ' || c = '\t' || c = '\n' || c = '\r'

/-- TOTP-branch cleaning: strip whitespace. -/
def stripSpaces (s : String) : String :=
  String.mk (s.data.filter (fun c => !isSpaceChar c))

/-- Backup-branch cleaning: strip whitespace and dashes, uppercase. -/
def cleanBackupInput (s : String) : String :=
  String.mk ((s.data.filter (fun c => !(isSpaceChar c || c = '-'))).map Char.toUpper)

/-- Translation of `MfaAuthController.onAuthValidateStep`.  `totpVerify`
models `authenticator.verify({token, secret})` from `otplib`.  The
branches appear in source order: unhandled step, missing code, missing
user, lockout check, then the backup-code or TOTP validation with its
success / failure accounting.  An exception thrown by `useBackupCode`
(length-mismatched stored hash) is caught by the surrounding `try` and
yields the generic message without accounting. -/
def onAuthValidateStep (A : Aead) (kdf : String → String → Nat → List Nat)
    (sessionSecret : String) (totpVerify : String → String → Bool)
    (step : String) (code : Option String) (user : Option User) (now : Nat) : StepOutcome :=
  if step ≠ "mfa" ∧ step ≠ "mfa-backup" then
    ⟨false, false, none, false, false⟩
  else if codeIsFalsy code then
    ⟨true, false, some (if step = "mfa" then "MFA code required" else "Backup code required"),
     false, false⟩
  else
    match user with
    | none => ⟨true, false, some "User not found", false, false⟩
    | some u =>
        let lockStatus := isLocked u now
        if lockStatus.locked then
          ⟨true, false,
           some ("Account is temporarily locked. Try again in " ++
             toString (lockStatus.remainingMinutes.getD 0) ++ " minute(s)."),
           false, false⟩
        else if step = "mfa-backup" then
          match useBackupCode (cleanBackupInput (code.getD "")) u.mfa.backupCodes with
          | .error _ => ⟨true, false, some "MFA verification failed", false, false⟩
          | .ok (true, _) => ⟨true, true, none, false, true⟩
          | .ok (false, _) =>
              ⟨true, false, some "Invalid or already used backup code", true, false⟩
        else
          let secret := getDecryptedSecret A kdf sessionSecret u
          if secret = "" then ⟨true, false, some "MFA not configured", false, false⟩
          else if totpVerify (stripSpaces (code.getD "")) secret then
            ⟨true, true, none, false, true⟩
          else ⟨true, false, some "Invalid MFA code", true, false⟩

/-! ## Concrete instances for closed statements

The theorems about `encrypt` / `decrypt` / `onAuthValidateStep` hold for
every `Aead` and key-derivation function; the instances below let closed
corollaries evaluate them on explicit inputs. -/

/-- Three big-endian base-256 digits of a character's code point. -/
def charDigits (c : Char) : List Nat :=
  [c.toNat / 65536, c.toNat / 256 % 256, c.toNat % 256]

/-- Inverse of `charDigits` on well-formed byte lists. -/
def charsOfDigits : List Nat → Option (List Char)
  | [] => some []
  | a :: b :: c :: rest =>
      match charsOfDigits rest with
      | some cs => some (Char.ofNat (a * 65536 + b * 256 + c) :: cs)
      | none => none
  | _ => none

/-- A concrete `Aead` instance: the "ciphertext" is the plaintext's
characters in three-byte form and the tag is sixteen zero bytes.  Not a
cipher, but it satisfies the contract fields of `Aead`, which is all the
blob-layout theorems rely on. -/
def byteAead : Aead where
  enc := fun _ _ pt => (List.flatten (pt.data.map charDigits), List.replicate 16 0)
  dec := fun _ _ _ ct => (charsOfDigits ct).map String.mk
  enc_ct_lt := by
    intro k iv pt b hb
    simp only at hb
    rw [List.mem_flatten] at hb
    obtain ⟨l, hl, hbl⟩ := hb
    rw [List.mem_map] at hl
    obtain ⟨c, _, rfl⟩ := hl
    have hc : c.toNat < 1114112 := by
      have hv := c.valid
      have he : c.toNat = c.val.toNat := rfl
      rcases hv with h | h <;> omega
    simp [charDigits] at hbl
    rcases hbl with rfl | rfl | rfl <;> omega
  enc_tag_lt := by
    intro k iv pt b hb
    simp only at hb
    have := List.eq_of_mem_replicate hb
    omega
  enc_tag_len := by
    intro k iv pt
    simp
  dec_enc := by
    intro k iv pt
    simp only
    have key : ∀ cs : List Char, charsOfDigits (List.flatten (cs.map charDigits)) = some cs := by
      intro cs
      induction cs with
      | nil => rfl
      | cons c rest ih =>
          have hc : c.toNat < 1114112 := by
            have hv := c.valid
            have he : c.toNat = c.val.toNat := rfl
            rcases hv with h | h <;> omega
          simp only [List.map_cons, List.flatten_cons, charDigits, List.cons_append,
            List.nil_append, charsOfDigits, ih]
          have harith :
              c.toNat / 65536 * 65536 + c.toNat / 256 % 256 * 256 + c.toNat % 256 = c.toNat := by
            omega
          rw [harith, Char.ofNat_toNat]
          simp only [List.append_eq, List.nil_append, ih]
    rw [key pt.data]
    rfl

/-- A concrete key-derivation function standing in for `scryptSync`. -/
def demoKdf : String → String → Nat → List Nat := fun _ _ n => List.replicate n 7

/-- A concrete 16-byte IV, as `randomBytes(16)` would return. -/
def demoIv : List Nat := List.replicate 16 1

/-- `required-for-roles` configuration with `root` mandated (the default
`requiredRoles` of `getDefaultConfig`). -/
def roleConfig : MfaConfig :=
  { mfaPolicy := "required-for-roles", requiredRoles := ["root"],
    maxFailedAttempts := 5, lockoutDuration := 15 }

/-- An MFA-enabled user holding the mandated `root` role. -/
def enabledRootUser : User :=
  { mfa := { emptyProfile with enabled := true, secret := "blob" }, roles := some ["root"] }

/-- The default lockout configuration (`maxFailedAttempts = 5`,
`lockoutDuration = 15` minutes) under an optional policy. -/
def lockoutConfig : MfaConfig :=
  { mfaPolicy := "optional", requiredRoles := ["root"],
    maxFailedAttempts := 5, lockoutDuration := 15 }

/-- A stored secret blob produced by `encrypt` under the concrete
instances, for exercising the TOTP branch on explicit inputs. -/
def demoSecretBlob : String := encrypt byteAead demoKdf "proc-secret" demoIv "JBSWY3DP"

/-- An MFA-enabled, unlocked user whose stored secret decrypts under the
concrete instances. -/
def totpUser : User :=
  { mfa := { emptyProfile with enabled := true, secret := demoSecretBlob }, roles := none }

/-- The profile of a user locked until t = 90000 ms. -/
def lockedProfile : MfaProfile :=
  { emptyProfile with
    enabled := true
    secret := "blob"
    failedAttempts := 5
    lockedUntil := some 90000 }

/-- A user locked until t = 90000 ms. -/
def lockedUser : User := { mfa := lockedProfile, roles := none }

/-- The SHA-256 digest stored for the backup code `A1B2-C3D4`
(`sha256('A1B2C3D4' + 'mfa-backup-salt')` in hex). -/
def storedHash : String :=
  "5adca7b73fb8f66fa324221047e492b1528017d9b5d5e0f243ce688ceaedf51b"

/-! ## Theorems -/

/-- C1: the claim requires `disable` to fail for every MFA-enabled user
under a mandating policy (here `required-for-roles` with the user holding
the mandated `root` role).  The code does the opposite: because
`isMfaRequired` short-circuits to reason `enabled` for any enabled user,
the `apiDisable` gate `required && reason !== 'enabled'` never fires for
an enabled user, so the disable proceeds (subject only to the password
check). -/
theorem c1_disable_gate_open_for_enabled_role_user :
    enabledRootUser.mfa.enabled = true ∧
    roleConfig.mfaPolicy = "required-for-roles" ∧
    enabledRootUser.roles = some ["root"] ∧
    roleConfig.requiredRoles = ["root"] ∧
    isMfaRequired enabledRootUser roleConfig 0 = ⟨true, "enabled"⟩ ∧
    disableBlockedByPolicy enabledRootUser roleConfig 0 = false := by
  decide

/-- C2: `isMfaRequired` agrees everywhere with the spec's decision table
(enabled first; then `required` with its grace check; then
`required-for-roles` with role intersection and the same grace check;
`optional` and unknown policies default to not required). -/
theorem c2_isMfaRequired_matches_spec (u : User) (c : MfaConfig) (now : Nat) :
    isMfaRequired u c now = isMfaRequiredSpec u c now := by
  unfold isMfaRequired isMfaRequiredSpec
  have hroles : ((u.roles.getD ["user"]).any fun role => c.requiredRoles.contains role) =
      decide (∃ role ∈ u.roles.getD ["user"], role ∈ c.requiredRoles) := by
    rw [Bool.eq_iff_iff]
    simp [List.any_eq_true]
  by_cases hu : u.mfa.enabled = true
  · simp [hu]
  · by_cases h1 : c.mfaPolicy = "required"
    · simp [hu, h1]
    · by_cases h2 : c.mfaPolicy = "required-for-roles"
      · simp [hu, h1, h2, hroles]
      · simp [hu, h1, h2]

/-- C7: `recordFailure` increments and persists the counter; at or above
the threshold it reports `locked = true` with
`lockedUntil = now + lockoutDuration minutes` and persists the lock, below
it it reports `locked = false`, returns no `lockedUntil`, and leaves the
stored `lockedUntil` untouched; `maxFailedAttempts` consecutive failures
from a fresh profile lock it; `recordSuccess` resets the counter and
clears the lock. -/
theorem c7_recordFailure_lockout (p : MfaProfile) (cfg : MfaConfig) (now : Nat) :
    ((recordFailure p cfg now).1.attempts = p.failedAttempts + 1) ∧
    ((recordFailure p cfg now).2.failedAttempts = p.failedAttempts + 1) ∧
    (cfg.maxFailedAttempts ≤ p.failedAttempts + 1 →
      (recordFailure p cfg now).1 =
        ⟨true, some (now + cfg.lockoutDuration * 60 * 1000), p.failedAttempts + 1⟩ ∧
      (recordFailure p cfg now).2.lockedUntil =
        some (now + cfg.lockoutDuration * 60 * 1000)) ∧
    (p.failedAttempts + 1 < cfg.maxFailedAttempts →
      (recordFailure p cfg now).1 = ⟨false, none, p.failedAttempts + 1⟩ ∧
      (recordFailure p cfg now).2.lockedUntil = p.lockedUntil) ∧
    (p.failedAttempts = 0 → 1 ≤ cfg.maxFailedAttempts →
      (recordFailure (repeatFailures cfg now p (cfg.maxFailedAttempts - 1)) cfg now).1.locked
        = true) ∧
    ((recordSuccess p now).failedAttempts = 0 ∧ (recordSuccess p now).lockedUntil = none) := by
  have hrep : ∀ n, (repeatFailures cfg now p n).failedAttempts = p.failedAttempts + n := by
    intro n
    induction n with
    | zero => rfl
    | succ k ih =>
        simp only [repeatFailures, recordFailure]
        split <;> simp [ih] <;> omega
  refine ⟨?_, ?_, ?_, ?_, ?_, rfl, rfl⟩
  · by_cases h : cfg.maxFailedAttempts ≤ p.failedAttempts + 1 <;> simp [recordFailure, h]
  · by_cases h : cfg.maxFailedAttempts ≤ p.failedAttempts + 1 <;> simp [recordFailure, h]
  · intro h
    simp [recordFailure, h]
  · intro h
    simp [recordFailure, show ¬cfg.maxFailedAttempts ≤ p.failedAttempts + 1 from by omega]
  · intro h0 hmax
    have hcond : cfg.maxFailedAttempts ≤
        (repeatFailures cfg now p (cfg.maxFailedAttempts - 1)).failedAttempts + 1 := by
      rw [hrep]
      omega
    simp [recordFailure, hcond]

/-- C7 witness: five consecutive failures from a fresh profile under the
default configuration lock the account, and a success resets the
counter. -/
theorem c7_witness :
    (recordFailure (repeatFailures lockoutConfig 100 emptyProfile
        (lockoutConfig.maxFailedAttempts - 1)) lockoutConfig 100).1.locked = true ∧
    (recordSuccess emptyProfile 5).failedAttempts = 0 :=
  ⟨(c7_recordFailure_lockout emptyProfile lockoutConfig 100).2.2.2.2.1 rfl (by decide),
   (c7_recordFailure_lockout emptyProfile lockoutConfig 5).2.2.2.2.2.1⟩

/-- C9: `isLocked` reports locked exactly when `lockedUntil` is set and in
the future; when locked, `remainingMinutes` is the ceiling of the
remaining time in minutes (characterized subtraction-style:
`lu - now ≤ m * 60000 < lu - now + 60000`); when unlocked the optional
fields are absent.  `isLocked` is a pure read — it returns a `LockStatus`
and the stored profile is not an output at all, so an elapsed
`lockedUntil` is simply reported unlocked (lazy expiry). -/
theorem c9_isLocked_characterization (u : User) (now : Nat) :
    ((isLocked u now).locked = true ↔ ∃ lu, u.mfa.lockedUntil = some lu ∧ now < lu) ∧
    (∀ lu, u.mfa.lockedUntil = some lu → now < lu →
      ∃ m, isLocked u now = ⟨true, some lu, some m⟩ ∧
        lu - now ≤ m * 60000 ∧ m * 60000 < lu - now + 60000) ∧
    ((isLocked u now).locked = false →
      (isLocked u now).remainingMinutes = none ∧ (isLocked u now).lockedUntil = none) := by
  rcases hcase : u.mfa.lockedUntil with _ | lu
  · refine ⟨by simp [isLocked, hcase], ?_, by simp [isLocked, hcase]⟩
    intro l h hlt
    exact Option.noConfusion h
  · by_cases hle : lu ≤ now
    · refine ⟨?_, ?_, by simp [isLocked, hcase, hle]⟩
      · simp only [isLocked, hcase]
        simp [hle]
      · intro l hl hlt
        injection hl with hl
        omega
    · refine ⟨?_, ?_, ?_⟩
      · simp only [isLocked, hcase]
        simp [hle]
        omega
      · intro l hl hlt2
        injection hl with hl
        subst hl
        exact ⟨(lu - now + 59999) / 60000, by simp [isLocked, hcase, hle], by omega, by omega⟩
      · intro hfalse
        exfalso
        simp [isLocked, hcase, hle] at hfalse

/-- C9 witness: a user locked until t = 90000 queried at t = 10000 is
locked with 2 remaining minutes (the ceiling of 80000 ms). -/
theorem c9_witness :
    ∃ m, isLocked lockedUser 10000 = ⟨true, some 90000, some m⟩ ∧
      90000 - 10000 ≤ m * 60000 ∧ m * 60000 < 90000 - 10000 + 60000 :=
  (c9_isLocked_characterization lockedUser 10000).2.1 90000 rfl (by decide)

/-! ### Helper lemmas: digests are 64 ASCII hex characters -/

theorem hexChar_toNat_lt (n : Nat) : (hexChar n).toNat < 128 := by
  unfold hexChar
  rcases Nat.lt_or_ge n 10 with h10 | h10
  · rw [if_pos h10]
    interval_cases n <;> decide
  · rw [if_neg (by omega)]
    rcases Nat.lt_or_ge n 16 with h16 | h16
    · rw [if_pos h16]
      interval_cases n <;> decide
    · rw [if_neg (by omega)]
      decide

theorem utf8Len_ascii (c : Char) (h : c.toNat < 128) :
    (String.utf8EncodeChar c).length = 1 := by
  have hle : c.val ≤ 0x7F := by
    show c.val.toBitVec ≤ (0x7F : UInt32).toBitVec
    rw [BitVec.le_def]
    have h1 : c.toNat = c.val.toBitVec.toNat := rfl
    have h127 : ((0x7F : UInt32).toBitVec).toNat = 127 := rfl
    omega
  unfold String.utf8EncodeChar
  rw [if_pos hle]
  rfl

theorem asciiBytes_length (cs : List Char) (h : ∀ c ∈ cs, c.toNat < 128) :
    ((List.flatten (cs.map String.utf8EncodeChar)).map UInt8.toNat).length = cs.length := by
  induction cs with
  | nil => rfl
  | cons c rest ih =>
      simp only [List.map_cons, List.flatten_cons, List.map_append, List.length_append,
        List.length_map]
      rw [utf8Len_ascii c (h c (by simp))]
      have := ih (fun x hx => h x (by simp [hx]))
      simp only [List.length_map] at this
      simp [this]
      omega

theorem wordHex_ascii (n : Nat) : ∀ c ∈ wordHex n, c.toNat < 128 := by
  intro c hc
  unfold wordHex at hc
  simp only [List.mem_cons, List.not_mem_nil, or_false] at hc
  rcases hc with rfl | rfl | rfl | rfl | rfl | rfl | rfl | rfl <;> exact hexChar_toNat_lt _

theorem flatten_wordHex_length (l : List Nat) :
    (List.flatten (l.map wordHex)).length = 8 * l.length := by
  induction l with
  | nil => rfl
  | cons n rest ih =>
      simp only [List.map_cons, List.flatten_cons, List.length_append, ih]
      have : (wordHex n).length = 8 := rfl
      rw [this, List.length_cons]
      ring

theorem sha256words_length (m : List Nat) : (sha256words m).length = 8 := by
  unfold sha256words
  have key : ∀ (chunks : List (List Nat)) (hs : List Nat), hs.length = 8 →
      (chunks.foldl compressChunk hs).length = 8 := by
    intro chunks
    induction chunks with
    | nil => intro hs h; exact h
    | cons c rest ih =>
        intro hs h
        apply ih
        rfl
  exact key _ shaInitial rfl

theorem digestBytes_length (m : List Nat) : (bytesOfString (sha256hex m)).length = 64 := by
  unfold bytesOfString sha256hex
  have hdata : (String.mk (List.flatten ((sha256words m).map wordHex))).data =
      List.flatten ((sha256words m).map wordHex) := rfl
  rw [hdata]
  rw [asciiBytes_length]
  · rw [flatten_wordHex_length, sha256words_length]
  · intro c hc
    rw [List.mem_flatten] at hc
    obtain ⟨l, hl, hcl⟩ := hc
    rw [List.mem_map] at hl
    obtain ⟨n, _, rfl⟩ := hl
    exact wordHex_ascii n c hcl

theorem hashBytes_length (code : String) :
    (bytesOfString (hashBackupCode code)).length = 64 := by
  unfold hashBackupCode
  exact digestBytes_length _

/-! ### Helper lemmas: the `verifyBackupCode` loop -/

theorem vbcLoop_total (input : List Nat) (l : List String) (k : Nat)
    (hlen : ∀ h ∈ l, (bytesOfString h).length = input.length) :
    ∃ r, vbcLoop input l k = .ok r := by
  induction l generalizing k with
  | nil => exact ⟨-1, rfl⟩
  | cons h rest ih =>
      unfold vbcLoop timingSafeEqual
      rw [if_pos (by rw [hlen h (by simp)])]
      rcases hbeq : input == bytesOfString h with _ | _
      · simpa using ih (k + 1) (fun x hx => hlen x (by simp [hx]))
      · exact ⟨Int.ofNat k, rfl⟩

theorem vbcLoop_not_found (input : List Nat) (l : List String) (k : Nat)
    (hlen : ∀ h ∈ l, (bytesOfString h).length = input.length)
    (hne : ∀ h ∈ l, bytesOfString h ≠ input) :
    vbcLoop input l k = .ok (-1) := by
  induction l generalizing k with
  | nil => rfl
  | cons h rest ih =>
      unfold vbcLoop timingSafeEqual
      rw [if_pos (by rw [hlen h (by simp)])]
      have hfalse : (input == bytesOfString h) = false := by
        rw [beq_eq_false_iff_ne]
        exact fun hc => hne h (by simp) hc.symm
      rw [hfalse]
      exact ih (k + 1) (fun x hx => hlen x (by simp [hx])) (fun x hx => hne x (by simp [hx]))

theorem vbcLoop_found (input : List Nat) :
    ∀ (l : List String) (i k : Nat), i < l.length →
    (∀ h ∈ l, (bytesOfString h).length = input.length) →
    bytesOfString (l.getD i "") = input →
    (∀ j, j < i → bytesOfString (l.getD j "") ≠ input) →
    vbcLoop input l k = .ok (Int.ofNat (k + i)) := by
  intro l
  induction l with
  | nil =>
      intro i k hi
      simp at hi
  | cons h rest ih =>
      intro i k hi hlen heq hfirst
      cases i with
      | zero =>
          unfold vbcLoop timingSafeEqual
          have hb : bytesOfString h = input := heq
          rw [if_pos (by rw [hb])]
          have hbeq : (input == bytesOfString h) = true := by
            rw [beq_iff_eq, hb]
          rw [hbeq]
          simp
      | succ i2 =>
          unfold vbcLoop timingSafeEqual
          have hne0 : bytesOfString h ≠ input := hfirst 0 (by omega)
          rw [if_pos (by rw [hlen h (by simp)])]
          have hfalse : (input == bytesOfString h) = false := by
            rw [beq_eq_false_iff_ne]
            exact fun hc => hne0 hc.symm
          rw [hfalse]
          have hrec := ih i2 (k + 1) (by rw [List.length_cons] at hi; omega)
            (fun x hx => hlen x (by simp [hx])) heq (fun j hj => hfirst (j + 1) (by omega))
          have harith : k + 1 + i2 = k + (i2 + 1) := by omega
          rw [hrec, harith]

/-! ### Helper lemmas: list indexing -/

theorem getD_mem_of_lt (l : List String) (j : Nat) (hj : j < l.length) :
    l.getD j "" ∈ l := by
  rw [List.getD_eq_getElem l "" hj]
  exact List.getElem_mem hj

theorem mem_getD_idx (l : List String) (x : String) (hx : x ∈ l) :
    ∃ j, j < l.length ∧ l.getD j "" = x := by
  rw [List.mem_iff_getElem] at hx
  obtain ⟨j, hj, hx⟩ := hx
  exact ⟨j, hj, by rw [List.getD_eq_getElem l "" hj]; exact hx⟩

theorem mem_eraseIdx_getD (l : List String) (i : Nat) (x : String)
    (hx : x ∈ l.eraseIdx i) :
    ∃ j, j < l.length ∧ j ≠ i ∧ l.getD j "" = x := by
  induction l generalizing i with
  | nil => simp [List.eraseIdx] at hx
  | cons a rest ih =>
      cases i with
      | zero =>
          have hx2 : x ∈ rest := hx
          obtain ⟨j, hj, hgd⟩ := mem_getD_idx rest x hx2
          exact ⟨j + 1, by simp; omega, by omega, by simpa using hgd⟩
      | succ i2 =>
          have hx2 : x ∈ a :: rest.eraseIdx i2 := hx
          rcases List.mem_cons.mp hx2 with rfl | hx3
          · exact ⟨0, by simp, by omega, rfl⟩
          · obtain ⟨j, hj, hji, hgd⟩ := ih i2 hx3
            exact ⟨j + 1, by simp; omega, by omega, by simpa using hgd⟩

/-! ### C6 -/

theorem stripDashes_eq_filter (cs : List Char) :
    stripDashes cs = cs.filter (fun c => c != '-') := by
  induction cs with
  | nil => rfl
  | cons c rest ih =>
      by_cases h : c = '-'
      · simp [stripDashes, h, List.filter_cons, ih]
      · simp [stripDashes, h, List.filter_cons, ih]

theorem upperChars_eq_map (cs : List Char) : upperChars cs = cs.map Char.toUpper := by
  induction cs with
  | nil => rfl
  | cons c rest ih => simp [upperChars, ih]

set_option maxRecDepth 10000 in
/-- C6 counterexample: the claim asserts hash invariance under any
non-alphanumeric separator; `"A1B2 C3D4"` and `"A1B2-C3D4"` agree after
the spec's normalization (strip non-alphanumerics, uppercase) yet hash
differently, because the source normalization strips only dashes and the
space survives into the hashed string. -/
theorem c6_space_separator_changes_hash :
    specNormalize "A1B2 C3D4" = specNormalize "A1B2-C3D4" ∧
    hashBackupCode "A1B2 C3D4" ≠ hashBackupCode "A1B2-C3D4" := by
  constructor
  · decide
  · decide

/-- C6 (amended): `hashBackupCode` is invariant under letter case and dash
placement — two codes that agree after removing dashes and uppercasing
hash identically (the source normalization is exactly dash-stripping plus
uppercasing, so other separators such as spaces are not normalized
away). -/
theorem c6_hash_invariant_case_dashes (c1 c2 : String)
    (h : (c1.data.filter (fun c => c != '-')).map Char.toUpper =
         (c2.data.filter (fun c => c != '-')).map Char.toUpper) :
    hashBackupCode c1 = hashBackupCode c2 := by
  unfold hashBackupCode normalizeBackupCode
  rw [stripDashes_eq_filter, stripDashes_eq_filter, upperChars_eq_map, upperChars_eq_map, h]

/-- C6 witness: a lowercase dashed variant hashes like the canonical
undashed uppercase code. -/
theorem c6_witness : hashBackupCode "a1b2-c3d4" = hashBackupCode "A1B2C3D4" :=
  c6_hash_invariant_case_dashes "a1b2-c3d4" "A1B2C3D4" (by decide)

/-! ### C8 and C10 -/

/-- C8: against stored hashes of the digest byte length, `verifyBackupCode`
returns `-1` when no stored hash matches the (single) hash of the
submitted code, and the first matching index otherwise; at a match,
`useBackupCode` succeeds and removes exactly the matched entry, and — for
pairwise-distinct stored hashes — the same code no longer verifies against
the updated list. -/
theorem c8_verify_first_match_and_consume (code : String) (hashes : List String)
    (hlen : ∀ h ∈ hashes, (bytesOfString h).length = 64) :
    ((∀ h ∈ hashes, bytesOfString h ≠ bytesOfString (hashBackupCode code)) →
      verifyBackupCode code hashes = .ok (-1)) ∧
    (∀ i, i < hashes.length →
      bytesOfString (hashes.getD i "") = bytesOfString (hashBackupCode code) →
      (∀ j, j < i → bytesOfString (hashes.getD j "") ≠ bytesOfString (hashBackupCode code)) →
      verifyBackupCode code hashes = .ok (Int.ofNat i) ∧
      useBackupCode code hashes = .ok (true, hashes.eraseIdx i) ∧
      (hashes.eraseIdx i).length + 1 = hashes.length ∧
      (hashes.Pairwise (fun a b => bytesOfString a ≠ bytesOfString b) →
        verifyBackupCode code (hashes.eraseIdx i) = .ok (-1))) := by
  have hinlen : (bytesOfString (hashBackupCode code)).length = 64 := hashBytes_length code
  constructor
  · intro hne
    exact vbcLoop_not_found _ _ _ (fun h hh => by rw [hlen h hh, hinlen]) hne
  · intro i hi heq hfirst
    have hfound : verifyBackupCode code hashes = .ok (Int.ofNat i) := by
      have := vbcLoop_found (bytesOfString (hashBackupCode code)) hashes i 0 hi
        (fun h hh => by rw [hlen h hh, hinlen]) heq hfirst
      simpa using this
    refine ⟨hfound, ?_, ?_, ?_⟩
    · simp only [useBackupCode, hfound]
      have hne : Int.ofNat i ≠ -1 := by
        have hco : Int.ofNat i = (i : Int) := rfl
        rw [hco]
        omega
      rw [if_neg hne]
      simp
    · rw [List.length_eraseIdx, if_pos hi]
      omega
    · intro hpw
      apply vbcLoop_not_found
      · intro h hh
        obtain ⟨j, hj, hji, hgd⟩ := mem_eraseIdx_getD hashes i h hh
        rw [hlen h (by rw [← hgd]; exact getD_mem_of_lt hashes j hj), hinlen]
      · intro h hh
        obtain ⟨j, hj, hji, hgd⟩ := mem_eraseIdx_getD hashes i h hh
        rw [← hgd]
        rcases Nat.lt_trichotomy j i with hlt | heqj | hgt
        · exact hfirst j hlt
        · exact absurd heqj hji
        · have hp := (List.pairwise_iff_getElem.mp hpw) i j hi hj hgt
          rw [List.getD_eq_getElem hashes "" hj]
          rw [List.getD_eq_getElem hashes "" hi] at heq
          intro hcontra
          exact hp (by rw [heq, hcontra])

set_option maxRecDepth 10000 in
/-- C8 witness: the code `A1B2-C3D4` matches its stored digest at index 0;
consuming it empties the list, after which the code no longer verifies. -/
theorem c8_witness :
    verifyBackupCode "A1B2-C3D4" [storedHash] = .ok 0 ∧
    useBackupCode "A1B2-C3D4" [storedHash] = .ok (true, []) ∧
    verifyBackupCode "A1B2-C3D4" [] = .ok (-1) := by
  have h := (c8_verify_first_match_and_consume "A1B2-C3D4" [storedHash]
    (by intro h hh; simp at hh; rw [hh]; decide)).2 0 (by simp)
    (by decide) (by intro j hj; omega)
  exact ⟨h.1, h.2.1, h.2.2.2 (by simp)⟩

set_option maxRecDepth 10000 in
/-- C10: `verifyBackupCode` always returns a value (an index or `-1`) when
every stored hash has the 64-byte length of a hex SHA-256 digest; and a
stored entry of a different byte length reached before any match makes the
per-entry constant-time comparison throw instead. -/
theorem c10_verify_totality_needs_wellformed_hashes (code : String) (hashes : List String) :
    ((∀ h ∈ hashes, (bytesOfString h).length = 64) →
      ∃ r, verifyBackupCode code hashes = .ok r) ∧
    verifyBackupCode "A1B2-C3D4" ["abc"] =
      .error "Input buffers must have the same byte length" := by
  constructor
  · intro hlen
    exact vbcLoop_total _ _ _ (fun h hh => by rw [hlen h hh, hashBytes_length])
  · rfl

set_option maxRecDepth 10000 in
/-- C10 witness: a well-formed singleton list yields a value. -/
theorem c10_witness : ∃ r, verifyBackupCode "A1B2-C3D4" [storedHash] = .ok r :=
  (c10_verify_totality_needs_wellformed_hashes "A1B2-C3D4" [storedHash]).1
    (by intro h hh; simp at hh; rw [hh]; decide)

/-! ### Helper lemmas: base64 round trip -/

theorem b64Val_b64Char : ∀ n, n < 64 → b64Val (b64Char n) = some n := by decide

theorem b64_roundtrip : ∀ (l : List Nat), (∀ b ∈ l, b < 256) →
    b64DecodeGroups ((b64EncodeChunks l).filterMap b64Val) = l
  | [], _ => rfl
  | [a], h => by
      have ha : a < 256 := h a (by simp)
      have h1 : b64Val (b64Char (a / 4)) = some (a / 4) := b64Val_b64Char _ (by omega)
      have h2 : b64Val (b64Char (a % 4 * 16)) = some (a % 4 * 16) :=
        b64Val_b64Char _ (by omega)
      show b64DecodeGroups (List.filterMap b64Val
        [b64Char (a / 4), b64Char (a % 4 * 16), '=', '=']) = [a]
      rw [List.filterMap_cons, h1, List.filterMap_cons, h2]
      have h3 : List.filterMap b64Val ['=', '='] = [] := by decide
      rw [h3]
      show [a / 4 * 4 + a % 4 * 16 / 16] = [a]
      have e1 : a / 4 * 4 + a % 4 * 16 / 16 = a := by omega
      rw [e1]
  | [a, b], h => by
      have ha : a < 256 := h a (by simp)
      have hb : b < 256 := h b (by simp)
      have h1 : b64Val (b64Char (a / 4)) = some (a / 4) := b64Val_b64Char _ (by omega)
      have h2 : b64Val (b64Char (a % 4 * 16 + b / 16)) = some (a % 4 * 16 + b / 16) :=
        b64Val_b64Char _ (by omega)
      have h3 : b64Val (b64Char (b % 16 * 4)) = some (b % 16 * 4) :=
        b64Val_b64Char _ (by omega)
      show b64DecodeGroups (List.filterMap b64Val
        [b64Char (a / 4), b64Char (a % 4 * 16 + b / 16), b64Char (b % 16 * 4), '=']) = [a, b]
      rw [List.filterMap_cons, h1, List.filterMap_cons, h2, List.filterMap_cons, h3]
      have h4 : List.filterMap b64Val ['='] = [] := by decide
      rw [h4]
      show [a / 4 * 4 + (a % 4 * 16 + b / 16) / 16,
        (a % 4 * 16 + b / 16) % 16 * 16 + b % 16 * 4 / 4] = [a, b]
      have e1 : a / 4 * 4 + (a % 4 * 16 + b / 16) / 16 = a := by omega
      have e2 : (a % 4 * 16 + b / 16) % 16 * 16 + b % 16 * 4 / 4 = b := by omega
      rw [e1, e2]
  | a :: b :: c :: rest, h => by
      have ha : a < 256 := h a (by simp)
      have hb : b < 256 := h b (by simp)
      have hc : c < 256 := h c (by simp)
      have h1 : b64Val (b64Char (a / 4)) = some (a / 4) := b64Val_b64Char _ (by omega)
      have h2 : b64Val (b64Char (a % 4 * 16 + b / 16)) = some (a % 4 * 16 + b / 16) :=
        b64Val_b64Char _ (by omega)
      have h3 : b64Val (b64Char (b % 16 * 4 + c / 64)) = some (b % 16 * 4 + c / 64) :=
        b64Val_b64Char _ (by omega)
      have h4 : b64Val (b64Char (c % 64)) = some (c % 64) := b64Val_b64Char _ (by omega)
      show b64DecodeGroups (List.filterMap b64Val
        (b64Char (a / 4) :: b64Char (a % 4 * 16 + b / 16) :: b64Char (b % 16 * 4 + c / 64) ::
          b64Char (c % 64) :: b64EncodeChunks rest)) = a :: b :: c :: rest
      rw [List.filterMap_cons, h1, List.filterMap_cons, h2, List.filterMap_cons, h3,
        List.filterMap_cons, h4]
      show (a / 4 * 4 + (a % 4 * 16 + b / 16) / 16) ::
        ((a % 4 * 16 + b / 16) % 16 * 16 + (b % 16 * 4 + c / 64) / 4) ::
        ((b % 16 * 4 + c / 64) % 4 * 64 + c % 64) ::
        b64DecodeGroups (List.filterMap b64Val (b64EncodeChunks rest)) = a :: b :: c :: rest
      rw [b64_roundtrip rest (fun x hx => h x (by simp [hx]))]
      have e1 : a / 4 * 4 + (a % 4 * 16 + b / 16) / 16 = a := by omega
      have e2 : (a % 4 * 16 + b / 16) % 16 * 16 + (b % 16 * 4 + c / 64) / 4 = b := by omega
      have e3 : (b % 16 * 4 + c / 64) % 4 * 64 + c % 64 = c := by omega
      rw [e1, e2, e3]

theorem b64decode_encode (l : List Nat) (h : ∀ b ∈ l, b < 256) :
    b64decode (b64encode l) = l := by
  unfold b64decode b64encode
  have hdata : (String.mk (b64EncodeChunks l)).data = b64EncodeChunks l := rfl
  rw [hdata]
  exact b64_roundtrip l h

theorem b64EncodeChunks_ne_nil (a : Nat) (rest : List Nat) :
    b64EncodeChunks (a :: rest) ≠ [] := by
  cases rest with
  | nil => simp [b64EncodeChunks]
  | cons b rest2 =>
      cases rest2 with
      | nil => simp [b64EncodeChunks]
      | cons c rest3 => simp [b64EncodeChunks]

theorem b64encode_ne_empty (l : List Nat) (h : l ≠ []) : b64encode l ≠ "" := by
  cases l with
  | nil => exact absurd rfl h
  | cons a rest =>
      intro hcontra
      have hdata := congrArg String.data hcontra
      have h1 : (b64encode (a :: rest)).data = b64EncodeChunks (a :: rest) := rfl
      have h2 : ("" : String).data = [] := rfl
      rw [h1, h2] at hdata
      exact b64EncodeChunks_ne_nil a rest hdata

/-! ### C4 and C5 -/

/-- C4: for every AEAD primitive satisfying the Node cipher contract,
every process secret, every non-empty plaintext and every fresh 16-byte
IV, `decrypt` inverts `encrypt` under the same process secret — the
derived key is the same on both sides because key derivation is a
function of the secret, and the blob layout `base64(iv ‖ tag ‖ ct)` is
split back at exactly the offsets it was assembled at. -/
theorem c4_decrypt_encrypt_roundtrip (A : Aead) (kdf : String → String → Nat → List Nat)
    (sessionSecret : String) (iv : List Nat) (text : String)
    (hivlen : iv.length = 16) (hivb : ∀ b ∈ iv, b < 256) (htext : text ≠ "") :
    decrypt A kdf sessionSecret (encrypt A kdf sessionSecret iv text) = text := by
  have hctb : ∀ b ∈ (A.enc (getEncryptionKey kdf sessionSecret) iv text).1, b < 256 :=
    fun b hb => A.enc_ct_lt _ iv text b hb
  have htagb : ∀ b ∈ (A.enc (getEncryptionKey kdf sessionSecret) iv text).2, b < 256 :=
    fun b hb => A.enc_tag_lt _ iv text b hb
  have htaglen : (A.enc (getEncryptionKey kdf sessionSecret) iv text).2.length = 16 :=
    A.enc_tag_len _ iv text
  have hblobb : ∀ b ∈ iv ++ (A.enc (getEncryptionKey kdf sessionSecret) iv text).2 ++
      (A.enc (getEncryptionKey kdf sessionSecret) iv text).1, b < 256 := by
    intro b hb
    rcases List.mem_append.mp hb with hb2 | hb2
    · rcases List.mem_append.mp hb2 with hb3 | hb3
      · exact hivb b hb3
      · exact htagb b hb3
    · exact hctb b hb2
  have hblobne : iv ++ (A.enc (getEncryptionKey kdf sessionSecret) iv text).2 ++
      (A.enc (getEncryptionKey kdf sessionSecret) iv text).1 ≠ [] := by
    intro hcontra
    have hiv : iv = [] := (List.append_eq_nil.mp ((List.append_eq_nil.mp hcontra).1)).1
    rw [hiv] at hivlen
    simp at hivlen
  simp only [encrypt, if_neg htext]
  rw [b64decode_encode _ hctb]
  simp only [decrypt, if_neg (b64encode_ne_empty _ hblobne)]
  rw [b64decode_encode _ hblobb]
  have hsplit1 : (iv ++ (A.enc (getEncryptionKey kdf sessionSecret) iv text).2 ++
      (A.enc (getEncryptionKey kdf sessionSecret) iv text).1).take 16 = iv := by
    rw [List.append_assoc]
    exact List.take_left' hivlen
  have hsplit2 : ((iv ++ (A.enc (getEncryptionKey kdf sessionSecret) iv text).2 ++
      (A.enc (getEncryptionKey kdf sessionSecret) iv text).1).drop 16).take 16 =
      (A.enc (getEncryptionKey kdf sessionSecret) iv text).2 := by
    rw [List.append_assoc, List.drop_left' hivlen]
    exact List.take_left' htaglen
  have hsplit3 : (iv ++ (A.enc (getEncryptionKey kdf sessionSecret) iv text).2 ++
      (A.enc (getEncryptionKey kdf sessionSecret) iv text).1).drop 32 =
      (A.enc (getEncryptionKey kdf sessionSecret) iv text).1 := by
    calc (iv ++ (A.enc (getEncryptionKey kdf sessionSecret) iv text).2 ++
        (A.enc (getEncryptionKey kdf sessionSecret) iv text).1).drop 32
        = ((iv ++ ((A.enc (getEncryptionKey kdf sessionSecret) iv text).2 ++
            (A.enc (getEncryptionKey kdf sessionSecret) iv text).1)).drop 16).drop 16 := by
          rw [List.drop_drop, List.append_assoc]
      _ = ((A.enc (getEncryptionKey kdf sessionSecret) iv text).2 ++
            (A.enc (getEncryptionKey kdf sessionSecret) iv text).1).drop 16 := by
          rw [List.drop_left' hivlen]
      _ = (A.enc (getEncryptionKey kdf sessionSecret) iv text).1 := by
          rw [List.drop_left' htaglen]
  rw [hsplit1, hsplit2, hsplit3]
  rw [if_neg (by rw [hivlen]; omega)]
  rw [if_neg (by rw [htaglen]; omega)]
  rw [A.dec_enc (getEncryptionKey kdf sessionSecret) iv text]

/-- C4 witness: the concrete instances round-trip a TOTP secret. -/
theorem c4_witness :
    decrypt byteAead demoKdf "proc-secret"
      (encrypt byteAead demoKdf "proc-secret" demoIv "JBSWY3DP") = "JBSWY3DP" :=
  c4_decrypt_encrypt_roundtrip byteAead demoKdf "proc-secret" demoIv "JBSWY3DP"
    (by decide) (by decide) (by decide)

/-- C5: `decrypt` fails closed — empty input to either operation is the
empty-string no-op, and for every non-empty blob whose parse is rejected
by the cipher boundary (empty IV slice, an auth tag slice that is not 16
bytes, or tag-verification failure reported by the AEAD) the result is
the generic empty-string failure, with no exception escaping (`decrypt`
is a total function into `String`). -/
theorem c5_decrypt_fails_closed (A : Aead) (kdf : String → String → Nat → List Nat)
    (sessionSecret : String) (iv : List Nat) :
    decrypt A kdf sessionSecret "" = "" ∧
    encrypt A kdf sessionSecret iv "" = "" ∧
    (∀ blob, blob ≠ "" →
      ((b64decode blob).take 16 = [] ∨
       (((b64decode blob).drop 16).take 16).length ≠ 16 ∨
       A.dec (getEncryptionKey kdf sessionSecret) ((b64decode blob).take 16)
         (((b64decode blob).drop 16).take 16) ((b64decode blob).drop 32) = none) →
      decrypt A kdf sessionSecret blob = "") := by
  refine ⟨rfl, rfl, ?_⟩
  intro blob hne hfail
  simp only [decrypt, if_neg hne]
  rcases hfail with h1 | h2 | h3
  · rw [if_pos (by rw [h1]; rfl)]
  · by_cases hb : ((b64decode blob).take 16).length = 0
    · rw [if_pos hb]
    · rw [if_neg hb, if_pos h2]
  · by_cases hb : ((b64decode blob).take 16).length = 0
    · rw [if_pos hb]
    · rw [if_neg hb]
      by_cases hb2 : (((b64decode blob).drop 16).take 16).length ≠ 16
      · rw [if_pos hb2]
      · rw [if_neg hb2, h3]

/-- C5 witness: the no-op conjuncts at the concrete instances, and a short
malformed blob (three decoded bytes, so an empty tag slice) decrypting to
the generic failure. -/
theorem c5_witness :
    decrypt byteAead demoKdf "proc-secret" "" = "" ∧
    encrypt byteAead demoKdf "proc-secret" demoIv "" = "" ∧
    decrypt byteAead demoKdf "proc-secret" "AAAA" = "" := by
  refine ⟨(c5_decrypt_fails_closed byteAead demoKdf "proc-secret" demoIv).1,
    (c5_decrypt_fails_closed byteAead demoKdf "proc-secret" demoIv).2.1,
    (c5_decrypt_fails_closed byteAead demoKdf "proc-secret" demoIv).2.2 "AAAA"
      (by decide) (Or.inr (Or.inl (by decide)))⟩

/-! ### C3 -/

theorem locked_msg_ne (m : String) :
    ("Account is temporarily locked. Try again in " ++ m ++ " minute(s).") ≠
      "Invalid MFA code" ∧
    ("Account is temporarily locked. Try again in " ++ m ++ " minute(s).") ≠
      "Invalid or already used backup code" := by
  have ha : ("Account is temporarily locked. Try again in " : String).length = 44 := by decide
  have hb : (" minute(s)." : String).length = 11 := by decide
  have hc : ("Invalid MFA code" : String).length = 16 := by decide
  have hd : ("Invalid or already used backup code" : String).length = 35 := by decide
  constructor <;> intro hcontra <;> have h1 := congrArg String.length hcontra <;>
    rw [String.length_append, String.length_append] at h1 <;> omega

/-- Exhaustive shapes of an `onAuthValidateStep` outcome: the pass-through,
the rejections without failure accounting (missing code, missing user,
lockout, missing or undecryptable secret, a thrown comparison error), the
accepted outcomes, and the two rejections that do record a failure. -/
theorem stepOutcome_cases (A : Aead) (kdf : String → String → Nat → List Nat)
    (sessionSecret : String) (totpVerify : String → String → Bool)
    (step : String) (code : Option String) (user : Option User) (now : Nat)
    (r : StepOutcome)
    (hr : r = onAuthValidateStep A kdf sessionSecret totpVerify step code user now) :
    r = ⟨false, false, none, false, false⟩ ∨
    (r.valid = false ∧ r.recordedFailure = false ∧
      (r.error = some "MFA code required" ∨
       r.error = some "Backup code required" ∨
       r.error = some "User not found" ∨
       r.error = some "MFA not configured" ∨
       r.error = some "MFA verification failed" ∨
       ∃ m, r.error =
         some ("Account is temporarily locked. Try again in " ++ m ++ " minute(s)."))) ∨
    (r.valid = true ∧ r.error = none ∧ r.recordedFailure = false) ∨
    r = ⟨true, false, some "Invalid or already used backup code", true, false⟩ ∨
    r = ⟨true, false, some "Invalid MFA code", true, false⟩ := by
  subst hr
  unfold onAuthValidateStep
  dsimp only
  split
  · exact Or.inl rfl
  · split
    · refine Or.inr (Or.inl ⟨rfl, rfl, ?_⟩)
      split
      · exact Or.inl rfl
      · exact Or.inr (Or.inl rfl)
    · split
      · exact Or.inr (Or.inl ⟨rfl, rfl, Or.inr (Or.inr (Or.inl rfl))⟩)
      · split
        · exact Or.inr (Or.inl ⟨rfl, rfl,
            Or.inr (Or.inr (Or.inr (Or.inr (Or.inr ⟨_, rfl⟩))))⟩)
        · split
          · split
            · exact Or.inr (Or.inl ⟨rfl, rfl,
                Or.inr (Or.inr (Or.inr (Or.inr (Or.inl rfl))))⟩)
            · exact Or.inr (Or.inr (Or.inl ⟨rfl, rfl, rfl⟩))
            · exact Or.inr (Or.inr (Or.inr (Or.inl rfl)))
          · split
            · exact Or.inr (Or.inl ⟨rfl, rfl, Or.inr (Or.inr (Or.inr (Or.inl rfl)))⟩)
            · split
              · exact Or.inr (Or.inr (Or.inl ⟨rfl, rfl, rfl⟩))
              · exact Or.inr (Or.inr (Or.inr (Or.inr rfl)))

/-- C3 counterexample: an invalid verification attempt (missing code)
against an unlocked, MFA-enabled user is rejected without the
failure-accounting call — `recordedFailure = false` — contradicting the
claim that every invalid attempt counts toward lockout. -/
theorem c3_missing_code_not_counted :
    totpUser.mfa.enabled = true ∧
    (isLocked totpUser 0).locked = false ∧
    onAuthValidateStep byteAead demoKdf "proc-secret" (fun _ _ => false) "mfa" none
      (some totpUser) 0 =
      ⟨true, false, some "MFA code required", false, false⟩ :=
  ⟨rfl, rfl, rfl⟩

/-- C3 (amended): failure accounting runs before rejection exactly on the
wrong-TOTP-code and unknown-backup-code paths — every outcome whose error
is `Invalid MFA code` or `Invalid or already used backup code` has
`recordedFailure = true` — while the missing-code, missing-user,
missing-or-undecryptable-secret and thrown-comparison rejections return
without failure accounting. -/
theorem c3_invalid_code_rejection_records_failure (A : Aead)
    (kdf : String → String → Nat → List Nat) (sessionSecret : String)
    (totpVerify : String → String → Bool) (step : String) (code : Option String)
    (user : Option User) (now : Nat)
    (h : (onAuthValidateStep A kdf sessionSecret totpVerify step code user now).error =
           some "Invalid MFA code" ∨
         (onAuthValidateStep A kdf sessionSecret totpVerify step code user now).error =
           some "Invalid or already used backup code") :
    (onAuthValidateStep A kdf sessionSecret totpVerify step code user now).recordedFailure
      = true ∧
    (onAuthValidateStep A kdf sessionSecret totpVerify step code user now).valid = false := by
  have hc := stepOutcome_cases A kdf sessionSecret totpVerify step code user now
    (onAuthValidateStep A kdf sessionSecret totpVerify step code user now) rfl
  rcases hc with h0 | ⟨hv, hrf, herr⟩ | ⟨hv, herr, hrf⟩ | hr | hr
  · rw [h0] at h
    simp at h
  · exfalso
    rcases herr with he | he | he | he | he | ⟨m, he⟩ <;> rw [he] at h
    · rcases h with h | h <;> exact absurd (Option.some.inj h) (by decide)
    · rcases h with h | h <;> exact absurd (Option.some.inj h) (by decide)
    · rcases h with h | h <;> exact absurd (Option.some.inj h) (by decide)
    · rcases h with h | h <;> exact absurd (Option.some.inj h) (by decide)
    · rcases h with h | h <;> exact absurd (Option.some.inj h) (by decide)
    · rcases h with h | h
      · exact absurd (Option.some.inj h) (locked_msg_ne m).1
      · exact absurd (Option.some.inj h) (locked_msg_ne m).2
  · exfalso
    rw [herr] at h
    rcases h with h | h <;> simp at h
  · rw [hr]
    exact ⟨rfl, rfl⟩
  · rw [hr]
    exact ⟨rfl, rfl⟩

/-- C3 witness: a wrong TOTP code against an unlocked, enabled user with a
decryptable stored secret is rejected with `Invalid MFA code` and has
recorded a failure. -/
theorem c3_witness :
    (onAuthValidateStep byteAead demoKdf "proc-secret" (fun _ _ => false) "mfa"
      (some "123456") (some totpUser) 0).recordedFailure = true ∧
    (onAuthValidateStep byteAead demoKdf "proc-secret" (fun _ _ => false) "mfa"
      (some "123456") (some totpUser) 0).valid = false :=
  c3_invalid_code_rejection_records_failure byteAead demoKdf "proc-secret"
    (fun _ _ => false) "mfa" (some "123456") (some totpUser) 0 (Or.inl (by decide))

end MfaAuth
